import Mathlib

/-!
Verification development for the m3u8 proxy service
(`src/m3u8-proxy-implementation.js`).

JavaScript strings are modelled as lists of Unicode scalar values
(`List Char`).  The ECMAScript built-ins the source calls
(`encodeURIComponent`, `decodeURIComponent`, `String.prototype.trim`,
the `/^(?!#)(.+\.ts.*)$/gm` regex replace, …) are modelled faithfully
at that level.  The two Express request handlers are embedded as pure
functions parameterised by an upstream-fetch oracle; the list of
`(url, headers)` pairs actually sent upstream is returned alongside the
response so that "no upstream fetch was attempted" is observable.
-/

set_option linter.all false
set_option maxRecDepth 8192

namespace M3u8Relay

/-- A JavaScript string: its list of Unicode scalar values. -/
abbrev JStr := List Char

/-- Embed a Lean string literal as a `JStr`. -/
def js (s : String) : JStr := s.data

/-- Concatenated map over a list (explicit form of flat-map, kept
first-order so every use unfolds definitionally). -/
def catMap (f : α → List β) : List α → List β
  | [] => []
  | a :: l => f a ++ catMap f l

/-! ## Percent encoding: model of `encodeURIComponent` -/

/-- The characters `encodeURIComponent` leaves unescaped:
`A–Z a–z 0–9 - _ . ! ~ * ' ( )`. -/
def uriUnreserved (c : Char) : Bool :=
  let n := c.toNat
  (65 ≤ n && n ≤ 90) || (97 ≤ n && n ≤ 122) || (48 ≤ n && n ≤ 57) ||
  n == 45 || n == 95 || n == 46 || n == 33 || n == 126 ||
  n == 42 || n == 39 || n == 40 || n == 41

/-- UTF-8 encoding of a code point, as byte values. -/
def utf8Bytes (v : Nat) : List Nat :=
  if v < 128 then [v]
  else if v < 2048 then [192 + v / 64, 128 + v % 64]
  else if v < 65536 then [224 + v / 4096, 128 + v / 64 % 64, 128 + v % 64]
  else [240 + v / 262144, 128 + v / 4096 % 64, 128 + v / 64 % 64, 128 + v % 64]

/-- Upper-case hex digit character for a value below 16. -/
def hexDigit (n : Nat) : Char := Char.ofNat (if n < 10 then 48 + n else 55 + n)

/-- A `%HH` escape for one byte. -/
def pctByte (b : Nat) : List Char := ['%', hexDigit (b / 16), hexDigit (b % 16)]

/-- `encodeURIComponent` on one character. -/
def encodeChar (c : Char) : List Char :=
  if uriUnreserved c then [c] else catMap pctByte (utf8Bytes c.toNat)

/-- Model of the ECMAScript built-in `encodeURIComponent`. -/
def encodeURIComponent (s : JStr) : JStr := catMap encodeChar s

/-! ## Percent decoding: model of `decodeURIComponent` -/

/-- Value of a hex digit character (either case), `none` otherwise. -/
def hexVal (c : Char) : Option Nat :=
  let n := c.toNat
  if 48 ≤ n ∧ n ≤ 57 then some (n - 48)
  else if 65 ≤ n ∧ n ≤ 70 then some (n - 55)
  else if 97 ≤ n ∧ n ≤ 102 then some (n - 87)
  else none

/-- Number of UTF-8 continuation bytes demanded by a lead byte;
`none` for bytes that can never lead a valid sequence. -/
def contCountOf (b : Nat) : Option Nat :=
  if b < 128 then some 0
  else if b < 194 then none
  else if b < 224 then some 1
  else if b < 240 then some 2
  else if b < 245 then some 3
  else none

/-- Read `k` further `%HH` escapes (the continuation bytes). -/
def readEscBytes : Nat → JStr → Option (List Nat × JStr)
  | 0, s => some ([], s)
  | k+1, '%' :: a :: b :: rest =>
    match hexVal a, hexVal b with
    | some ha, some hb =>
      match readEscBytes k rest with
      | some (bs, r) => some ((ha * 16 + hb) :: bs, r)
      | none => none
    | _, _ => none
  | _+1, _ => none

/-- Combine a lead byte and its continuation bytes into a code point,
rejecting malformed, overlong and surrogate encodings (as the
ECMAScript `Decode` abstract operation does). -/
def utf8Val (lead : Nat) (conts : List Nat) : Option Nat :=
  if conts.all (fun b => 128 ≤ b && b < 192) then
    match conts with
    | [] => if lead < 128 then some lead else none
    | [b1] =>
      if 194 ≤ lead ∧ lead < 224 then some ((lead - 192) * 64 + (b1 - 128))
      else none
    | [b1, b2] =>
      if 224 ≤ lead ∧ lead < 240 then
        let v := (lead - 224) * 4096 + (b1 - 128) * 64 + (b2 - 128)
        if 2048 ≤ v ∧ (v < 55296 ∨ 57343 < v) then some v else none
      else none
    | [b1, b2, b3] =>
      if 240 ≤ lead ∧ lead < 245 then
        let v := (lead - 240) * 262144 + (b1 - 128) * 4096 +
                 (b2 - 128) * 64 + (b3 - 128)
        if 65536 ≤ v ∧ v < 1114112 then some v else none
      else none
    | _ => none
  else none

/-- Decode one complete escape sequence (everything after the `%` that
introduced it): the remaining hex digits, any continuation escapes, and
the UTF-8 validity check. -/
def decodeEsc : JStr → Option (Char × JStr)
  | a :: b :: rest2 =>
    match hexVal a, hexVal b with
    | some ha, some hb =>
      match contCountOf (ha * 16 + hb) with
      | some k =>
        match readEscBytes k rest2 with
        | some (conts, rest3) =>
          match utf8Val (ha * 16 + hb) conts with
          | some v => some (Char.ofNat v, rest3)
          | none => none
        | none => none
      | none => none
    | _, _ => none
  | _ => none

/-- Fuel-indexed decoding loop; the fuel only bounds the number of
produced characters, which never exceeds the input length. -/
def decodeAux : Nat → JStr → Option JStr
  | _, [] => some []
  | 0, _ :: _ => none
  | fuel+1, c :: rest =>
    if c = '%' then
      match decodeEsc rest with
      | some p =>
        match decodeAux fuel p.2 with
        | some tail => some (p.1 :: tail)
        | none => none
      | none => none
    else
      match decodeAux fuel rest with
      | some tail => some (c :: tail)
      | none => none

/-- Model of the ECMAScript built-in `decodeURIComponent`;
`none` models a thrown `URIError`. -/
def decodeURIComponent (s : JStr) : Option JStr := decodeAux s.length s

/-! ## Encode/decode roundtrip -/

theorem hexVal_hexDigit : ∀ n, n < 16 → hexVal (hexDigit n) = some n := by decide

theorem readEscBytes_cons (k : Nat) (b : Nat) (rest : JStr) (hb : b < 256) :
    readEscBytes (k + 1) (pctByte b ++ rest) =
      match readEscBytes k rest with
      | some (bs, r) => some (b :: bs, r)
      | none => none := by
  have h1 : b / 16 < 16 := by omega
  have h2 : b % 16 < 16 := by omega
  simp only [pctByte, List.cons_append, List.nil_append, readEscBytes,
    hexVal_hexDigit _ h1, hexVal_hexDigit _ h2]
  have h3 : b / 16 * 16 + b % 16 = b := by omega
  rw [h3]
  rfl

/-- The escape sequences produced for one (non-unreserved) character
decode back to exactly that character. -/
theorem decodeEsc_encoded (v : Nat) (hval : v.isValidChar) (t : JStr) :
    ∃ r, catMap pctByte (utf8Bytes v) ++ t = '%' :: r ∧
      decodeEsc r = some (Char.ofNat v, t) := by
  have hvlt : v < 1114112 := by
    rcases hval with h | ⟨h1, h2⟩ <;> omega
  by_cases h1 : v < 128
  · have hutf : utf8Bytes v = [v] := by simp [utf8Bytes, h1]
    refine ⟨hexDigit (v / 16) :: hexDigit (v % 16) :: t, ?_, ?_⟩
    · simp [hutf, catMap, pctByte]
    · have hlead : v / 16 * 16 + v % 16 = v := by omega
      have hcc : contCountOf v = some 0 := by simp [contCountOf, h1]
      have hv8 : utf8Val v [] = some v := by simp [utf8Val, h1]
      simp only [decodeEsc, hexVal_hexDigit _ (by omega : v / 16 < 16),
        hexVal_hexDigit _ (by omega : v % 16 < 16), hlead, hcc, readEscBytes, hv8]
  · by_cases h2 : v < 2048
    · have hutf : utf8Bytes v = [192 + v / 64, 128 + v % 64] := by
        simp [utf8Bytes, h1, h2]
      set b0 := 192 + v / 64 with hb0
      set b1 := 128 + v % 64 with hb1
      refine ⟨hexDigit (b0 / 16) :: hexDigit (b0 % 16) :: (pctByte b1 ++ t), ?_, ?_⟩
      · simp [hutf, catMap, pctByte]
      · have hlead : b0 / 16 * 16 + b0 % 16 = b0 := by omega
        have hcc : contCountOf b0 = some 1 := by
          simp only [contCountOf]
          rw [if_neg (by omega), if_neg (by omega), if_pos (by omega)]
        have hread : readEscBytes 1 (pctByte b1 ++ t) = some ([b1], t) := by
          simpa [readEscBytes] using readEscBytes_cons 0 b1 t (by omega)
        have hv8 : utf8Val b0 [b1] = some v := by
          simp only [utf8Val, List.all_cons, List.all_nil]
          rw [if_pos (by simp only [Bool.and_true, Bool.and_eq_true,
            decide_eq_true_eq]; omega)]
          rw [if_pos (by omega)]
          congr 1
          omega
        simp only [decodeEsc, hexVal_hexDigit _ (by omega : b0 / 16 < 16),
          hexVal_hexDigit _ (by omega : b0 % 16 < 16), hlead, hcc, hread, hv8]
    · by_cases h3 : v < 65536
      · have hutf : utf8Bytes v = [224 + v / 4096, 128 + v / 64 % 64, 128 + v % 64] := by
          simp [utf8Bytes, h1, h2, h3]
        set b0 := 224 + v / 4096 with hb0
        set b1 := 128 + v / 64 % 64 with hb1
        set b2 := 128 + v % 64 with hb2
        have hnosur : v < 55296 ∨ 57343 < v := by
          rcases hval with h | ⟨ha, hb⟩
          · left; omega
          · right; omega
        refine ⟨hexDigit (b0 / 16) :: hexDigit (b0 % 16) ::
          (pctByte b1 ++ (pctByte b2 ++ t)), ?_, ?_⟩
        · simp [hutf, catMap, pctByte]
        · have hlead : b0 / 16 * 16 + b0 % 16 = b0 := by omega
          have hcc : contCountOf b0 = some 2 := by
            simp only [contCountOf]
            rw [if_neg (by omega), if_neg (by omega), if_neg (by omega),
              if_pos (by omega)]
          have hr1 : readEscBytes 1 (pctByte b2 ++ t) = some ([b2], t) := by
            simpa [readEscBytes] using readEscBytes_cons 0 b2 t (by omega)
          have hread : readEscBytes 2 (pctByte b1 ++ (pctByte b2 ++ t)) =
              some ([b1, b2], t) := by
            simpa [hr1] using readEscBytes_cons 1 b1 (pctByte b2 ++ t) (by omega)
          have hv8 : utf8Val b0 [b1, b2] = some v := by
            simp only [utf8Val, List.all_cons, List.all_nil]
            rw [if_pos (by simp only [Bool.and_true, Bool.and_eq_true,
              decide_eq_true_eq]; omega)]
            rw [if_pos (by omega)]
            rw [if_pos (And.intro (by omega) (by omega))]
            congr 1
            omega
          simp only [decodeEsc, hexVal_hexDigit _ (by omega : b0 / 16 < 16),
            hexVal_hexDigit _ (by omega : b0 % 16 < 16), hlead, hcc, hread, hv8]
      · have hutf : utf8Bytes v =
            [240 + v / 262144, 128 + v / 4096 % 64, 128 + v / 64 % 64, 128 + v % 64] := by
          simp [utf8Bytes, h1, h2, h3]
        set b0 := 240 + v / 262144 with hb0
        set b1 := 128 + v / 4096 % 64 with hb1
        set b2 := 128 + v / 64 % 64 with hb2
        set b3 := 128 + v % 64 with hb3
        refine ⟨hexDigit (b0 / 16) :: hexDigit (b0 % 16) ::
          (pctByte b1 ++ (pctByte b2 ++ (pctByte b3 ++ t))), ?_, ?_⟩
        · simp [hutf, catMap, pctByte]
        · have hlead : b0 / 16 * 16 + b0 % 16 = b0 := by omega
          have hcc : contCountOf b0 = some 3 := by
            simp only [contCountOf]
            rw [if_neg (by omega), if_neg (by omega), if_neg (by omega),
              if_neg (by omega), if_pos (by omega)]
          have hr1 : readEscBytes 1 (pctByte b3 ++ t) = some ([b3], t) := by
            simpa [readEscBytes] using readEscBytes_cons 0 b3 t (by omega)
          have hr2 : readEscBytes 2 (pctByte b2 ++ (pctByte b3 ++ t)) =
              some ([b2, b3], t) := by
            simpa [hr1] using readEscBytes_cons 1 b2 (pctByte b3 ++ t) (by omega)
          have hread : readEscBytes 3
              (pctByte b1 ++ (pctByte b2 ++ (pctByte b3 ++ t))) =
              some ([b1, b2, b3], t) := by
            simpa [hr2] using
              readEscBytes_cons 2 b1 (pctByte b2 ++ (pctByte b3 ++ t)) (by omega)
          have hv8 : utf8Val b0 [b1, b2, b3] = some v := by
            simp only [utf8Val, List.all_cons, List.all_nil]
            rw [if_pos (by simp only [Bool.and_true, Bool.and_eq_true,
              decide_eq_true_eq]; omega)]
            rw [if_pos (by omega)]
            rw [if_pos (And.intro (by omega) (by omega))]
            congr 1
            omega
          simp only [decodeEsc, hexVal_hexDigit _ (by omega : b0 / 16 < 16),
            hexVal_hexDigit _ (by omega : b0 % 16 < 16), hlead, hcc, hread, hv8]

theorem decodeAux_encodeChar (c : Char) (t : JStr) (f : Nat) :
    decodeAux (f + 1) (encodeChar c ++ t) =
      (decodeAux f t).map (fun tail => c :: tail) := by
  by_cases hu : uriUnreserved c = true
  · have hne : ¬ c = '%' := by
      intro h
      subst h
      simp [uriUnreserved] at hu
    rw [show encodeChar c = [c] from by simp [encodeChar, hu]]
    rw [List.cons_append, List.nil_append, decodeAux, if_neg hne]
    cases decodeAux f t <;> rfl
  · rw [show encodeChar c = catMap pctByte (utf8Bytes c.toNat) from by
      simp [encodeChar, hu]]
    obtain ⟨r, hr, hesc⟩ := decodeEsc_encoded c.toNat c.valid t
    rw [hr, decodeAux, if_pos rfl, hesc]
    rw [Char.ofNat_toNat]
    show (match decodeAux f t with
      | some tail => some (c :: tail)
      | none => none) = Option.map (fun tail => c :: tail) (decodeAux f t)
    cases decodeAux f t <;> rfl

theorem decodeAux_encode (s : JStr) :
    ∀ f, s.length ≤ f → decodeAux f (encodeURIComponent s) = some s := by
  induction s with
  | nil => intro f _; cases f <;> rfl
  | cons c s ih =>
    intro f hf
    cases f with
    | zero => simp at hf
    | succ f =>
      rw [show encodeURIComponent (c :: s) = encodeChar c ++ encodeURIComponent s
        from rfl]
      rw [decodeAux_encodeChar, ih f (by simpa using hf)]
      rfl

theorem length_le_encode (s : JStr) : s.length ≤ (encodeURIComponent s).length := by
  induction s with
  | nil => simp [encodeURIComponent, catMap]
  | cons c s ih =>
    rw [show encodeURIComponent (c :: s) = encodeChar c ++ encodeURIComponent s
      from rfl]
    rw [List.length_append, List.length_cons]
    have hpos : 1 ≤ (encodeChar c).length := by
      unfold encodeChar
      by_cases h : uriUnreserved c = true
      · simp [h]
      · rw [if_neg h]
        unfold utf8Bytes
        split
        · simp [catMap, pctByte]
        · split
          · simp [catMap, pctByte]
          · split
            · simp [catMap, pctByte]
            · simp [catMap, pctByte]
    omega

/-- `decodeURIComponent` inverts `encodeURIComponent`. -/
theorem decode_encode (s : JStr) :
    decodeURIComponent (encodeURIComponent s) = some s :=
  decodeAux_encode s _ (length_le_encode s)

/-! ## Strings, lines and the manifest rewrite -/

/-- Whitespace removed by `String.prototype.trim` (ECMAScript
WhiteSpace and LineTerminator code points). -/
def isJsWs (c : Char) : Bool :=
  let n := c.toNat
  n == 9 || n == 10 || n == 11 || n == 12 || n == 13 || n == 32 || n == 160 ||
  n == 5760 || (8192 ≤ n && n ≤ 8202) || n == 8232 || n == 8233 ||
  n == 8239 || n == 8287 || n == 12288 || n == 65279

/-- Model of `String.prototype.trim`. -/
def jsTrim (s : JStr) : JStr :=
  ((s.dropWhile isJsWs).reverse.dropWhile isJsWs).reverse

/-- ECMAScript LineTerminator code points: these bound the `^`/`$`
anchors under the regex `m` flag and are excluded by `.`. -/
def isLineTerm (c : Char) : Bool :=
  let n := c.toNat
  n == 10 || n == 13 || n == 8232 || n == 8233

/-- Split a string into its first line and the following
(terminator, line) pairs; lines contain no terminator characters. -/
def splitLinesP (s : JStr) : JStr × List (Char × JStr) :=
  s.foldr
    (fun c p => if isLineTerm c then ([], (c, p.1) :: p.2) else (c :: p.1, p.2))
    ([], [])

/-- Reassemble a line decomposition into a string. -/
def joinLinesP (p : JStr × List (Char × JStr)) : JStr :=
  p.1 ++ catMap (fun tl => tl.1 :: tl.2) p.2

/-- `String.prototype.startsWith` for a pattern (first argument). -/
def startsWithChars : JStr → JStr → Bool
  | [], _ => true
  | _ :: _, [] => false
  | p :: ps, c :: cs => p == c && startsWithChars ps cs

/-- Does `pat` occur as a contiguous substring? -/
def containsSeq (pat : JStr) : JStr → Bool
  | [] => startsWithChars pat []
  | c :: cs => startsWithChars pat (c :: cs) || containsSeq pat cs

/-- A line matches the segment-reference regex `^(?!#)(.+\.ts.*)$`:
it is non-empty, its first character is not `#`, and `.ts` occurs at
some index ≥ 1 (the `.+` demands a character before the `.ts`). -/
def segMatch : JStr → Bool
  | [] => false
  | c :: tl => !(c == '#') && containsSeq (js ".ts") tl

/-- `decodedUrl.substring(0, decodedUrl.lastIndexOf('/') + 1)`:
the decoded target URL up to and including its final `/`
(empty when there is no `/`). -/
def baseUrlOf (u : JStr) : JStr :=
  (u.reverse.dropWhile (fun c => !(c == '/'))).reverse

/-- Lines 80–85 of the source: trim the matched line and, unless it
starts with the four characters `http`, prepend `baseUrl`. -/
def resolveRef (baseUrl : JStr) (line : JStr) : JStr :=
  let t := jsTrim line
  if startsWithChars (js "http") t then t else baseUrl ++ t

/-- The replace callback (source lines 79–93) for one matched line.
When the inbound request carried a (truthy) `headers` query value the
callback executes `proxyUrl += …` on the `const proxyUrl` binding,
which raises a `TypeError` in JavaScript; `Except.error` carries the
V8 message that the surrounding catch block will report. -/
def rewriteLine (origin baseUrl : JStr) (headersRaw : Option JStr) (line : JStr) :
    Except JStr JStr :=
  if segMatch line then
    let tsUrl := resolveRef baseUrl line
    match headersRaw with
    | some _ => .error (js "Assignment to constant variable.")
    | none => .ok (origin ++ js "/ts-proxy?url=" ++ encodeURIComponent tsUrl)
  else .ok line

/-- The rewrite of the (terminator, line) tail, aborting at the first
throwing callback (as `String.prototype.replace` does). -/
def rewriteRest (origin baseUrl : JStr) (headersRaw : Option JStr) :
    List (Char × JStr) → Except JStr (List (Char × JStr))
  | [] => .ok []
  | (t, l) :: rest =>
    match rewriteLine origin baseUrl headersRaw l with
    | .error e => .error e
    | .ok l2 =>
      match rewriteRest origin baseUrl headersRaw rest with
      | .error e => .error e
      | .ok rest2 => .ok ((t, l2) :: rest2)

/-- `content.replace(/^(?!#)(.+\.ts.*)$/gm, …)` — the whole-manifest
rewrite. -/
def rewriteManifest (origin baseUrl : JStr) (headersRaw : Option JStr)
    (content : JStr) : Except JStr JStr :=
  match rewriteLine origin baseUrl headersRaw (splitLinesP content).1 with
  | .error e => .error e
  | .ok first =>
    match rewriteRest origin baseUrl headersRaw (splitLinesP content).2 with
    | .error e => .error e
    | .ok rest => .ok (joinLinesP (first, rest))

/-- The pure per-line rewrite in the no-`headers` case. -/
def rewriteLineOk (origin baseUrl : JStr) (line : JStr) : JStr :=
  if segMatch line then
    origin ++ js "/ts-proxy?url=" ++ encodeURIComponent (resolveRef baseUrl line)
  else line

/-! ## Header construction -/

/-- A header value; `none` models the JavaScript `undefined`. -/
abbrev HVal := Option JStr

/-- An ordered JavaScript object of header fields. -/
abbrev HeaderMap := List (JStr × HVal)

/-- One JavaScript property assignment: an existing key keeps its
position and gets the new value, a new key is appended. -/
def insertHeader (m : HeaderMap) (k : JStr) (v : HVal) : HeaderMap :=
  if m.any (fun kv => kv.1 == k) then
    m.map (fun kv => if kv.1 == k then (k, v) else kv)
  else m ++ [(k, v)]

/-- JavaScript object spread `{…base, …overrides}`: the override keys
are assigned over the base object in order. -/
def mergeHeaders (base overrides : HeaderMap) : HeaderMap :=
  overrides.foldl (fun acc kv => insertHeader acc kv.1 kv.2) base

/-- The browser-identification string hard-coded in the source. -/
def uaString : JStr :=
  js "Mozilla/5.0 (Windows NT 10.0; Win64; x64) AppleWebKit/537.36 (KHTML, like Gecko) Chrome/91.0.4472.124 Safari/537.36"

/-- Default headers of the `/m3u8-proxy` handler (source lines 51–59). -/
def m3u8DefaultHeaders : HeaderMap :=
  [(js "User-Agent", some uaString),
   (js "Accept", some (js "*/*")),
   (js "Accept-Language", some (js "en-US,en;q=0.9")),
   (js "Accept-Encoding", some (js "gzip, deflate, br")),
   (js "Connection", some (js "keep-alive")),
   (js "Upgrade-Insecure-Requests", some (js "1"))]

/-- Default headers of the `/ts-proxy` handler (source lines 137–145);
`'Range': req.headers.range || undefined` maps a missing or empty
inbound Range header to the undefined value. -/
def tsDefaultHeaders (rangeHeader : Option JStr) : HeaderMap :=
  [(js "User-Agent", some uaString),
   (js "Accept", some (js "*/*")),
   (js "Accept-Language", some (js "en-US,en;q=0.9")),
   (js "Accept-Encoding", some (js "gzip, deflate, br")),
   (js "Connection", some (js "keep-alive")),
   (js "Range",
     match rangeHeader with
     | some r => if r == [] then none else some r
     | none => none)]

/-- The `if (headers) try { requestHeaders = JSON.parse(decodeURIComponent(headers)) } catch {}`
block.  `jsonParse` abstracts `JSON.parse` together with the enumeration
of the parsed value's own properties by object spread; `none` models a
thrown `SyntaxError`.  Every failure (falsy parameter, `URIError` from
decoding, parse error) leaves the overrides empty. -/
def buildOverrides (jsonParse : JStr → Option HeaderMap) (headers? : Option JStr) :
    HeaderMap :=
  match headers? with
  | none => []
  | some h =>
    if h == [] then []
    else
      match decodeURIComponent h with
      | none => []
      | some d => (jsonParse d).getD []

/-! ## Upstream fetch and the two handlers -/

/-- An upstream HTTP response as the handlers observe it through the
`node-fetch` API. -/
structure UpResp where
  status : Nat
  statusText : JStr
  contentType : Option JStr
  contentLength : Option JStr
  contentRange : Option JStr
  bodyText : JStr
deriving Repr, DecidableEq

/-- Result of an upstream fetch: a response, or a rejection
(network failure, timeout, …) with its message. -/
inductive FetchResult where
  | resp : UpResp → FetchResult
  | err : JStr → FetchResult
deriving Repr, DecidableEq

/-- `response.ok` of the fetch API: status in [200, 300). -/
def respOk (r : UpResp) : Bool := decide (200 ≤ r.status ∧ r.status < 300)

/-- Modelled from the spec: the invariant "targetUrl must be a
syntactically valid absolute URI after percent-decoding; if decoding or
parsing fails, no upstream fetch is attempted" is enforced inside the
`node-fetch` dependency (not in src/): its request constructor parses
the URL and rejects with `TypeError` before any network I/O unless the
URL is an absolute http(s) URI with a nonempty host. -/
def isAbsoluteUrl (u : JStr) : Bool :=
  (startsWithChars (js "http://") u && decide (7 < u.length)) ||
  (startsWithChars (js "https://") u && decide (8 < u.length))

/-- Modelled from the spec: `node-fetch` (external dependency) issues
the network GET only after URL validation.  The second component is the
list of network requests actually issued, so "no upstream fetch was
attempted" is observable. -/
def nodeFetch (net : JStr → HeaderMap → FetchResult) (u : JStr) (h : HeaderMap) :
    FetchResult × List (JStr × HeaderMap) :=
  if isAbsoluteUrl u then (net u h, [(u, h)])
  else (.err (js "Only absolute URLs are supported"), [])

/-- Lower-case hex digit character (for `JSON.stringify` escapes). -/
def hexDigitLower (n : Nat) : Char := Char.ofNat (if n < 10 then 48 + n else 87 + n)

/-- `JSON.stringify` escaping of one string character. -/
def jsonEscChar (c : Char) : JStr :=
  if c = '"' then ['\\', '"']
  else if c = '\\' then ['\\', '\\']
  else if c.toNat == 8 then ['\\', 'b']
  else if c.toNat == 9 then ['\\', 't']
  else if c.toNat == 10 then ['\\', 'n']
  else if c.toNat == 12 then ['\\', 'f']
  else if c.toNat == 13 then ['\\', 'r']
  else if c.toNat < 32 then
    ['\\', 'u', '0', '0', hexDigitLower (c.toNat / 16), hexDigitLower (c.toNat % 16)]
  else [c]

/-- A JSON string literal. -/
def jsonStr (s : JStr) : JStr := '"' :: (catMap jsonEscChar s ++ ['"'])

/-- Serialized body of `res.json({ error: e })`. -/
def errorJson (e : JStr) : JStr := js "\x7b\"error\":" ++ jsonStr e ++ js "\x7d"

/-- Serialized body of `res.json({ error: e, details: d })`. -/
def errorDetailsJson (e d : JStr) : JStr :=
  js "\x7b\"error\":" ++ jsonStr e ++ js ",\"details\":" ++ jsonStr d ++ js "\x7d"

/-- `${req.protocol}://${req.get('host')}`. -/
def mkOrigin (protocol host : JStr) : JStr := protocol ++ js "://" ++ host

/-- Observable outcome of the `/m3u8-proxy` handler. -/
structure M3u8Out where
  status : Nat
  body : JStr
  fetched : List (JStr × HeaderMap)
deriving Repr, DecidableEq

/-- The `/m3u8-proxy` handler (source lines 31–114).  `url?` and
`headers?` are the raw query-parameter values; `net` is the network
behind `node-fetch`; `jsonParse` abstracts `JSON.parse` + spread. -/
def m3u8Handler (net : JStr → HeaderMap → FetchResult)
    (jsonParse : JStr → Option HeaderMap) (protocol host : JStr)
    (url? headers? : Option JStr) : M3u8Out :=
  match url? with
  | none => ⟨400, errorJson (js "URL parameter is required"), []⟩
  | some url =>
    if url == [] then ⟨400, errorJson (js "URL parameter is required"), []⟩
    else
      match decodeURIComponent url with
      | none =>
        ⟨500, errorDetailsJson (js "Failed to fetch M3U8") (js "URI malformed"), []⟩
      | some decodedUrl =>
        let headersEff : Option JStr :=
          match headers? with
          | some h => if h == [] then none else some h
          | none => none
        let requestHeaders := buildOverrides jsonParse headers?
        let outHeaders := mergeHeaders m3u8DefaultHeaders requestHeaders
        match nodeFetch net decodedUrl outHeaders with
        | (.err msg, fetched) =>
          ⟨500, errorDetailsJson (js "Failed to fetch M3U8") msg, fetched⟩
        | (.resp r, fetched) =>
          if respOk r then
            match rewriteManifest (mkOrigin protocol host) (baseUrlOf decodedUrl)
                headersEff r.bodyText with
            | .error msg =>
              ⟨500, errorDetailsJson (js "Failed to fetch M3U8") msg, fetched⟩
            | .ok content2 => ⟨200, content2, fetched⟩
          else
            ⟨500, errorDetailsJson (js "Failed to fetch M3U8")
              (js "HTTP " ++ Nat.toDigits 10 r.status ++ js ": " ++ r.statusText),
             fetched⟩

/-- JavaScript truthiness of a nullable header string, as returned by
`response.headers.get(...)`: both `null` (header absent) and the empty
string are falsy. -/
def jsTruthy : Option JStr → Bool
  | none => false
  | some s => !(s == [])

/-- `v || dflt` on a nullable header string: the default is used when
the header is absent or its value is the (falsy) empty string. -/
def jsOrDefault (v : Option JStr) (dflt : JStr) : JStr :=
  match v with
  | none => dflt
  | some s => if s == [] then dflt else s

/-- Observable outcome of the `/ts-proxy` handler.  `contentLength`
records that Express's `res.set` stringifies a `null` upstream
Content-Length into the string `"null"`. -/
structure TsOut where
  status : Nat
  contentType : Option JStr
  contentLength : Option JStr
  acceptRanges : Option JStr
  contentRange : Option JStr
  errBody : Option JStr
  streamsUpstream : Bool
  fetched : List (JStr × HeaderMap)
deriving Repr, DecidableEq

/-- The `/ts-proxy` handler (source lines 117–185). -/
def tsHandler (net : JStr → HeaderMap → FetchResult)
    (jsonParse : JStr → Option HeaderMap) (rangeHeader : Option JStr)
    (url? headers? : Option JStr) : TsOut :=
  match url? with
  | none =>
    ⟨400, none, none, none, none,
     some (errorJson (js "URL parameter is required")), false, []⟩
  | some url =>
    if url == [] then
      ⟨400, none, none, none, none,
       some (errorJson (js "URL parameter is required")), false, []⟩
    else
      match decodeURIComponent url with
      | none =>
        ⟨500, none, none, none, none,
         some (errorDetailsJson (js "Failed to fetch TS file") (js "URI malformed")),
         false, []⟩
      | some decodedUrl =>
        let requestHeaders := buildOverrides jsonParse headers?
        let outHeaders := mergeHeaders (tsDefaultHeaders rangeHeader) requestHeaders
        match nodeFetch net decodedUrl outHeaders with
        | (.err msg, fetched) =>
          ⟨500, none, none, none, none,
           some (errorDetailsJson (js "Failed to fetch TS file") msg), false, fetched⟩
        | (.resp r, fetched) =>
          if respOk r then
            ⟨if jsTruthy r.contentRange then 206 else 200,
             some (jsOrDefault r.contentType (js "video/mp2t")),
             some (r.contentLength.getD (js "null")),
             some (js "bytes"),
             (if jsTruthy r.contentRange then r.contentRange else none),
             none, true, fetched⟩
          else
            ⟨500, none, none, none, none,
             some (errorDetailsJson (js "Failed to fetch TS file")
               (js "HTTP " ++ Nat.toDigits 10 r.status ++ js ": " ++ r.statusText)),
             false, fetched⟩

/-! ## Supporting lemmas -/

theorem startsWithChars_iff (p : JStr) :
    ∀ s, startsWithChars p s = true ↔ ∃ t, s = p ++ t := by
  induction p with
  | nil => intro s; simp [startsWithChars]
  | cons a p ih =>
    intro s
    cases s with
    | nil => simp [startsWithChars]
    | cons c cs =>
      simp only [startsWithChars, Bool.and_eq_true, beq_iff_eq, ih]
      constructor
      · rintro ⟨rfl, t, rfl⟩
        exact ⟨t, rfl⟩
      · rintro ⟨t, ht⟩
        rw [List.cons_append] at ht
        injection ht with h1 h2
        exact ⟨h1.symm, t, h2⟩

theorem startsWithChars_append (p t : JStr) : startsWithChars p (p ++ t) = true :=
  (startsWithChars_iff p _).2 ⟨t, rfl⟩

theorem containsSeq_of_starts {p s : JStr} (h : startsWithChars p s = true) :
    containsSeq p s = true := by
  cases s with
  | nil => simpa [containsSeq] using h
  | cons c cs => simp [containsSeq, h]

theorem containsSeq_append_left (p : JStr) :
    ∀ x t, containsSeq p t = true → containsSeq p (x ++ t) = true := by
  intro x
  induction x with
  | nil => intro t h; simpa using h
  | cons c cs ih =>
    intro t h
    have h2 := ih t h
    simp only [List.cons_append, containsSeq, List.append_eq, h2, Bool.or_true]

theorem containsSeq_mid (p x y : JStr) : containsSeq p (x ++ (p ++ y)) = true :=
  containsSeq_append_left p x _ (containsSeq_of_starts (startsWithChars_append p y))

/-- No line-terminator characters occur in the string. -/
def noTerm (s : JStr) : Bool := s.all (fun c => !(isLineTerm c))

theorem noTerm_append_true {a b : JStr} (ha : noTerm a = true) (hb : noTerm b = true) :
    noTerm (a ++ b) = true := by
  simp only [noTerm, List.all_append, Bool.and_eq_true] at *
  exact ⟨ha, hb⟩

theorem isLineTerm_hexDigit : ∀ n, n < 16 → isLineTerm (hexDigit n) = false := by decide

theorem noTerm_pctByte (b : Nat) (hb : b < 256) : noTerm (pctByte b) = true := by
  have h1 := isLineTerm_hexDigit (b / 16) (by omega)
  have h2 := isLineTerm_hexDigit (b % 16) (by omega)
  have h3 : isLineTerm '%' = false := by decide
  simp [noTerm, pctByte, h1, h2, h3]

theorem uriUnreserved_ranges (c : Char) (h : uriUnreserved c = true) :
    (65 ≤ c.toNat ∧ c.toNat ≤ 90) ∨ (97 ≤ c.toNat ∧ c.toNat ≤ 122) ∨
    (48 ≤ c.toNat ∧ c.toNat ≤ 57) ∨ c.toNat = 45 ∨ c.toNat = 95 ∨ c.toNat = 46 ∨
    c.toNat = 33 ∨ c.toNat = 126 ∨ c.toNat = 42 ∨ c.toNat = 39 ∨ c.toNat = 40 ∨
    c.toNat = 41 := by
  have h2 := h
  simp only [uriUnreserved, Bool.or_eq_true, Bool.and_eq_true, beq_iff_eq,
    decide_eq_true_eq] at h2
  tauto

theorem isLineTerm_eq_false_of (c : Char)
    (h : ¬ (c.toNat = 10 ∨ c.toNat = 13 ∨ c.toNat = 8232 ∨ c.toNat = 8233)) :
    isLineTerm c = false := by
  cases hlt : isLineTerm c
  · rfl
  · exfalso
    apply h
    simp only [isLineTerm, Bool.or_eq_true, beq_iff_eq] at hlt
    tauto

theorem noTerm_encodeChar (c : Char) : noTerm (encodeChar c) = true := by
  unfold encodeChar
  by_cases h : uriUnreserved c = true
  · rw [if_pos h]
    have hr := uriUnreserved_ranges c h
    have : isLineTerm c = false := isLineTerm_eq_false_of c (by omega)
    simp [noTerm, this]
  · rw [if_neg h]
    have hval : c.toNat.isValidChar := c.valid
    have hv : c.toNat < 1114112 := by
      rcases hval with hh | ⟨hh1, hh2⟩ <;> omega
    unfold utf8Bytes
    split
    · next h1 =>
      simp only [catMap, List.append_nil]
      exact noTerm_pctByte _ (by omega)
    · split
      · next h1 h2 =>
        simp only [catMap, List.append_nil]
        exact noTerm_append_true (noTerm_pctByte _ (by omega))
          (noTerm_pctByte _ (by omega))
      · split
        · next h1 h2 h3 =>
          simp only [catMap, List.append_nil]
          exact noTerm_append_true (noTerm_pctByte _ (by omega))
            (noTerm_append_true (noTerm_pctByte _ (by omega))
              (noTerm_pctByte _ (by omega)))
        · next h1 h2 h3 =>
          simp only [catMap, List.append_nil]
          exact noTerm_append_true (noTerm_pctByte _ (by omega))
            (noTerm_append_true (noTerm_pctByte _ (by omega))
              (noTerm_append_true (noTerm_pctByte _ (by omega))
                (noTerm_pctByte _ (by omega))))

theorem noTerm_encode (s : JStr) : noTerm (encodeURIComponent s) = true := by
  induction s with
  | nil => rfl
  | cons c s ih =>
    exact noTerm_append_true (noTerm_encodeChar c) ih

/-! ## Line-split structure -/

theorem splitLinesP_cons (c : Char) (s : JStr) :
    splitLinesP (c :: s) =
      if isLineTerm c then ([], (c, (splitLinesP s).1) :: (splitLinesP s).2)
      else (c :: (splitLinesP s).1, (splitLinesP s).2) := rfl

theorem splitLinesP_append_noTerm :
    ∀ (a b : JStr), noTerm a = true →
      splitLinesP (a ++ b) = (a ++ (splitLinesP b).1, (splitLinesP b).2) := by
  intro a
  induction a with
  | nil => intro b _; simp
  | cons c a ih =>
    intro b h
    have h2 : noTerm a = true := by
      simp only [noTerm, List.all_cons, Bool.and_eq_true] at h
      exact h.2
    have hc : isLineTerm c = false := by
      simp only [noTerm, List.all_cons, Bool.and_eq_true, Bool.not_eq_true'] at h
      exact h.1
    rw [List.cons_append, splitLinesP_cons, if_neg (by simp [hc]), ih b h2]
    rfl

theorem splitLinesP_props (s : JStr) :
    noTerm (splitLinesP s).1 = true ∧
    ∀ tl ∈ (splitLinesP s).2, isLineTerm tl.1 = true ∧ noTerm tl.2 = true := by
  induction s with
  | nil => exact ⟨rfl, by simp [splitLinesP]⟩
  | cons c s ih =>
    rw [splitLinesP_cons]
    by_cases hc : isLineTerm c
    · rw [if_pos hc]
      refine ⟨rfl, ?_⟩
      intro tl htl
      simp only [List.mem_cons] at htl
      rcases htl with rfl | htl
      · exact ⟨hc, ih.1⟩
      · exact ih.2 tl htl
    · rw [if_neg hc]
      refine ⟨?_, ih.2⟩
      have hc2 : isLineTerm c = false := by
        revert hc; cases isLineTerm c <;> simp
      simp only [noTerm, List.all_cons, Bool.and_eq_true, Bool.not_eq_true']
      exact ⟨hc2, ih.1⟩

theorem splitLinesP_join :
    ∀ (rest : List (Char × JStr)) (first : JStr), noTerm first = true →
      (∀ tl ∈ rest, isLineTerm tl.1 = true ∧ noTerm tl.2 = true) →
      splitLinesP (joinLinesP (first, rest)) = (first, rest) := by
  intro rest
  induction rest with
  | nil =>
    intro first h1 _
    show splitLinesP (first ++ catMap _ []) = (first, [])
    rw [show catMap (fun tl : Char × JStr => tl.1 :: tl.2) [] = [] from rfl]
    rw [splitLinesP_append_noTerm first [] h1]
    simp [splitLinesP]
  | cons tl rest ih =>
    intro first h1 h2
    obtain ⟨t, l⟩ := tl
    have hjoin : joinLinesP (first, (t, l) :: rest) =
        first ++ (t :: joinLinesP (l, rest)) := by
      simp [joinLinesP, catMap]
    rw [hjoin, splitLinesP_append_noTerm first _ h1, splitLinesP_cons,
      if_pos (h2 (t, l) (by simp)).1,
      ih l (h2 (t, l) (by simp)).2 (fun x hx => h2 x (by simp [hx]))]
    simp

/-! ## Rewrite equations -/

theorem rewriteLine_none (origin baseUrl line) :
    rewriteLine origin baseUrl none line = .ok (rewriteLineOk origin baseUrl line) := by
  unfold rewriteLine rewriteLineOk
  by_cases h : segMatch line = true
  · rw [if_pos h, if_pos h]
  · rw [if_neg h, if_neg h]

theorem rewriteRest_none (origin baseUrl : JStr) : ∀ rest,
    rewriteRest origin baseUrl none rest =
      .ok (rest.map (fun tl => (tl.1, rewriteLineOk origin baseUrl tl.2))) := by
  intro rest
  induction rest with
  | nil => rfl
  | cons tl rest ih =>
    obtain ⟨t, l⟩ := tl
    simp only [rewriteRest, rewriteLine_none, ih, List.map_cons]

theorem rewriteManifest_none (origin baseUrl content : JStr) :
    rewriteManifest origin baseUrl none content =
      .ok (joinLinesP (rewriteLineOk origin baseUrl (splitLinesP content).1,
        (splitLinesP content).2.map
          (fun tl => (tl.1, rewriteLineOk origin baseUrl tl.2)))) := by
  simp only [rewriteManifest, rewriteLine_none, rewriteRest_none]

theorem rewriteLine_some_ok {origin baseUrl h line l2}
    (hok : rewriteLine origin baseUrl (some h) line = .ok l2) :
    segMatch line = false ∧ l2 = line := by
  revert hok
  unfold rewriteLine
  by_cases hm : segMatch line = true
  · rw [if_pos hm]
    intro hcontra
    exact absurd hcontra (by simp)
  · rw [if_neg hm]
    intro hok
    refine ⟨by revert hm; cases segMatch line <;> simp, ?_⟩
    injection hok with h2
    exact h2.symm

theorem rewriteRest_some_ok {origin baseUrl h} : ∀ {rest rest2},
    rewriteRest origin baseUrl (some h) rest = .ok rest2 →
      rest2 = rest ∧ ∀ tl ∈ rest, segMatch tl.2 = false := by
  intro rest
  induction rest with
  | nil =>
    intro rest2 hok
    injection hok with h2
    exact ⟨h2.symm, by simp⟩
  | cons tl rest ih =>
    intro rest2 hok
    obtain ⟨t, l⟩ := tl
    revert hok
    unfold rewriteRest
    cases hline : rewriteLine origin baseUrl (some h) l with
    | error e => intro hok; exact absurd hok (by simp)
    | ok l2 =>
      cases hrest : rewriteRest origin baseUrl (some h) rest with
      | error e => intro hok; exact absurd hok (by simp)
      | ok rest3 =>
        intro hok
        injection hok with h2
        obtain ⟨hm, rfl⟩ := rewriteLine_some_ok hline
        obtain ⟨rfl, hall⟩ := ih hrest
        refine ⟨h2.symm, ?_⟩
        intro x hx
        simp only [List.mem_cons] at hx
        rcases hx with rfl | hx
        · exact hm
        · exact hall x hx

/-! ## Further supporting lemmas -/

theorem mergeHeaders_nil (base : HeaderMap) : mergeHeaders base [] = base := rfl

theorem decodeURIComponent_nil : decodeURIComponent ([] : JStr) = some [] := rfl

/-- The lines of a string in order (first line, then the tail lines). -/
def linesOf (s : JStr) : List JStr :=
  (splitLinesP s).1 :: (splitLinesP s).2.map Prod.snd

/-- The line-terminator characters of a string, in order. -/
def termsOf (s : JStr) : List Char := (splitLinesP s).2.map Prod.fst

theorem jsTrim_starts_http {l : JStr} (h : startsWithChars (js "http") l = true) :
    startsWithChars (js "http") (jsTrim l) = true := by
  obtain ⟨t, rfl⟩ := (startsWithChars_iff _ _).1 h
  unfold jsTrim
  have h1 : List.dropWhile isJsWs (js "http" ++ t) = js "http" ++ t := by
    rw [show js "http" ++ t = 'h' :: (js "ttp" ++ t) from rfl]
    rw [List.dropWhile_cons, if_neg (by decide)]
  rw [h1, List.reverse_append, List.dropWhile_append]
  by_cases he : (List.dropWhile isJsWs t.reverse).isEmpty = true
  · rw [if_pos he]
    rw [show List.dropWhile isJsWs (js "http").reverse = (js "http").reverse from by
      decide]
    rw [List.reverse_reverse]
    exact (startsWithChars_iff _ _).2 ⟨[], (List.append_nil _).symm⟩
  · rw [if_neg he]
    rw [List.reverse_append, List.reverse_reverse]
    exact startsWithChars_append _ _

theorem m3u8Handler_some (net : JStr → HeaderMap → FetchResult)
    (jsonParse : JStr → Option HeaderMap) (protocol host url : JStr)
    (headers? : Option JStr) (d : JStr)
    (hdec : decodeURIComponent url = some d) (habs : isAbsoluteUrl d = true) :
    m3u8Handler net jsonParse protocol host (some url) headers? =
      (match net d (mergeHeaders m3u8DefaultHeaders (buildOverrides jsonParse headers?)) with
       | .err msg =>
         ⟨500, errorDetailsJson (js "Failed to fetch M3U8") msg,
          [(d, mergeHeaders m3u8DefaultHeaders (buildOverrides jsonParse headers?))]⟩
       | .resp r =>
         if respOk r then
           match rewriteManifest (mkOrigin protocol host) (baseUrlOf d)
               (match headers? with
                | some h => if h == [] then none else some h
                | none => none) r.bodyText with
           | .error msg =>
             ⟨500, errorDetailsJson (js "Failed to fetch M3U8") msg,
              [(d, mergeHeaders m3u8DefaultHeaders (buildOverrides jsonParse headers?))]⟩
           | .ok content2 =>
             ⟨200, content2,
              [(d, mergeHeaders m3u8DefaultHeaders (buildOverrides jsonParse headers?))]⟩
         else
           ⟨500, errorDetailsJson (js "Failed to fetch M3U8")
             (js "HTTP " ++ Nat.toDigits 10 r.status ++ js ": " ++ r.statusText),
            [(d, mergeHeaders m3u8DefaultHeaders (buildOverrides jsonParse headers?))]⟩) := by
  have hne : ¬ url = [] := by
    intro hcase
    subst hcase
    rw [decodeURIComponent_nil] at hdec
    injection hdec with h2
    rw [← h2] at habs
    exact absurd habs (by decide)
  have hbeq : (url == ([] : JStr)) = false := by
    cases url with
    | nil => exact absurd rfl hne
    | cons a as => rfl
  simp only [m3u8Handler, hbeq, Bool.false_eq_true, if_false, hdec, nodeFetch, habs,
    if_true]
  cases net d (mergeHeaders m3u8DefaultHeaders (buildOverrides jsonParse headers?)) <;>
    rfl

theorem tsHandler_some (net : JStr → HeaderMap → FetchResult)
    (jsonParse : JStr → Option HeaderMap) (rangeHeader : Option JStr) (url : JStr)
    (headers? : Option JStr) (d : JStr)
    (hdec : decodeURIComponent url = some d) (habs : isAbsoluteUrl d = true) :
    tsHandler net jsonParse rangeHeader (some url) headers? =
      (match net d (mergeHeaders (tsDefaultHeaders rangeHeader)
          (buildOverrides jsonParse headers?)) with
       | .err msg =>
         ⟨500, none, none, none, none,
          some (errorDetailsJson (js "Failed to fetch TS file") msg), false,
          [(d, mergeHeaders (tsDefaultHeaders rangeHeader)
            (buildOverrides jsonParse headers?))]⟩
       | .resp r =>
         if respOk r then
           ⟨if jsTruthy r.contentRange then 206 else 200,
            some (jsOrDefault r.contentType (js "video/mp2t")),
            some (r.contentLength.getD (js "null")),
            some (js "bytes"),
            (if jsTruthy r.contentRange then r.contentRange else none),
            none, true,
            [(d, mergeHeaders (tsDefaultHeaders rangeHeader)
              (buildOverrides jsonParse headers?))]⟩
         else
           ⟨500, none, none, none, none,
            some (errorDetailsJson (js "Failed to fetch TS file")
              (js "HTTP " ++ Nat.toDigits 10 r.status ++ js ": " ++ r.statusText)),
            false,
            [(d, mergeHeaders (tsDefaultHeaders rangeHeader)
              (buildOverrides jsonParse headers?))]⟩) := by
  have hne : ¬ url = [] := by
    intro hcase
    subst hcase
    rw [decodeURIComponent_nil] at hdec
    injection hdec with h2
    rw [← h2] at habs
    exact absurd habs (by decide)
  have hbeq : (url == ([] : JStr)) = false := by
    cases url with
    | nil => exact absurd rfl hne
    | cons a as => rfl
  simp only [tsHandler, hbeq, Bool.false_eq_true, if_false, hdec, nodeFetch, habs,
    if_true]
  cases net d (mergeHeaders (tsDefaultHeaders rangeHeader)
    (buildOverrides jsonParse headers?)) <;> rfl

/-! ## Claims -/

/-- C5: every request to `/m3u8-proxy` or `/ts-proxy` that omits the
`url` query parameter is answered 400 with body
`{"error":"URL parameter is required"}` and no upstream call is made. -/
theorem claim_C5_missing_url (net : JStr → HeaderMap → FetchResult)
    (jsonParse : JStr → Option HeaderMap) (protocol host : JStr)
    (rangeHeader headers? : Option JStr) :
    m3u8Handler net jsonParse protocol host none headers? =
      ⟨400, js "\x7b\"error\":\"URL parameter is required\"\x7d", []⟩ ∧
    tsHandler net jsonParse rangeHeader none headers? =
      ⟨400, none, none, none, none,
       some (js "\x7b\"error\":\"URL parameter is required\"\x7d"), false, []⟩ := by
  have hbody : errorJson (js "URL parameter is required") =
      js "\x7b\"error\":\"URL parameter is required\"\x7d" := by decide
  constructor
  · rw [show m3u8Handler net jsonParse protocol host none headers? =
      ⟨400, errorJson (js "URL parameter is required"), []⟩ from rfl, hbody]
  · rw [show tsHandler net jsonParse rangeHeader none headers? =
      ⟨400, none, none, none, none,
       some (errorJson (js "URL parameter is required")), false, []⟩ from rfl, hbody]

/-- C1 (code bug): when the inbound request carries a `headers` query
parameter and the playlist contains a segment line, the
`const proxyUrl` / `proxyUrl += …` slip in the rewrite callback
(source lines 88–90) throws a `TypeError`, so `/m3u8-proxy` answers
500 `{error, details:"Assignment to constant variable."}` instead of
returning the rewritten playlist with the header parameter forwarded. -/
theorem claim_C1_const_reassign_bug :
    m3u8Handler
      (fun _ _ => FetchResult.resp ⟨200, js "OK", none, none, none,
        js "#EXTM3U\nseg0.ts"⟩)
      (fun _ => some []) (js "http") (js "relay.host")
      (some (js "http%3A%2F%2Fcdn.example%2Fa%2Findex.m3u8"))
      (some (js "%7B%7D")) =
      ⟨500, errorDetailsJson (js "Failed to fetch M3U8")
        (js "Assignment to constant variable."),
       [(js "http://cdn.example/a/index.m3u8", m3u8DefaultHeaders)]⟩ := by
  decide

/-- C10: the absolute-URI test of the rewrite is the literal prefix
check `tsUrl.startsWith('http')` on the trimmed reference: a trimmed
reference beginning with `http` (including `httpd_seg.ts`) is never
resolved against `baseUrl`, while any other reference — whatever its
scheme, e.g. `ftp://host/seg.ts` — is prefixed with `baseUrl`. -/
theorem claim_C10_literal_http_check :
    (∀ (baseUrl line : JStr),
      (startsWithChars (js "http") (jsTrim line) = true →
        resolveRef baseUrl line = jsTrim line) ∧
      (startsWithChars (js "http") (jsTrim line) = false →
        resolveRef baseUrl line = baseUrl ++ jsTrim line)) ∧
    (∀ (origin baseUrl line : JStr), segMatch line = true →
      startsWithChars (js "http") (jsTrim line) = true →
      rewriteLine origin baseUrl none line =
        .ok (origin ++ js "/ts-proxy?url=" ++ encodeURIComponent (jsTrim line))) ∧
    resolveRef (js "http://cdn.example/a/") (js "httpd_seg.ts") = js "httpd_seg.ts" ∧
    resolveRef (js "http://cdn.example/a/") (js "ftp://host/seg.ts") =
      js "http://cdn.example/a/" ++ js "ftp://host/seg.ts" := by
  refine ⟨?_, ?_, by decide, by decide⟩
  · intro baseUrl line
    constructor
    · intro h
      simp only [resolveRef]
      rw [if_pos h]
    · intro h
      simp only [resolveRef]
      rw [if_neg (by simp [h])]
  · intro origin baseUrl line hm hp
    simp only [rewriteLine, resolveRef]
    rw [if_pos hm, if_pos hp]

/-- Witness for C10 at concrete inputs. -/
theorem claim_C10_literal_http_check_witness :
    resolveRef (js "http://cdn.example/a/") (js "httpd_seg.ts") = js "httpd_seg.ts" ∧
    resolveRef (js "http://cdn.example/a/") (js "ftp://host/seg.ts") =
      js "http://cdn.example/a/" ++ js "ftp://host/seg.ts" ∧
    rewriteLine (js "http://relay.host") (js "http://cdn.example/a/") none
      (js "http://other.cdn/seg1.ts") =
      .ok (js "http://relay.host" ++ js "/ts-proxy?url=" ++
        encodeURIComponent (jsTrim (js "http://other.cdn/seg1.ts"))) :=
  ⟨(claim_C10_literal_http_check.1 _ _).1 (by decide),
   (claim_C10_literal_http_check.1 _ _).2 (by decide),
   claim_C10_literal_http_check.2.1 _ _ _ (by decide) (by decide)⟩

/-- C4: a `url` parameter that fails percent-decoding, or decodes to
something that is not a syntactically valid absolute URI, never leads
to an upstream GET: each handler produces an error response with an
empty fetch log. -/
theorem claim_C4_invalid_url_no_fetch (net : JStr → HeaderMap → FetchResult)
    (jsonParse : JStr → Option HeaderMap) (protocol host url : JStr)
    (rangeHeader headers? : Option JStr) :
    (decodeURIComponent url = none →
      m3u8Handler net jsonParse protocol host (some url) headers? =
        ⟨500, errorDetailsJson (js "Failed to fetch M3U8") (js "URI malformed"), []⟩ ∧
      tsHandler net jsonParse rangeHeader (some url) headers? =
        ⟨500, none, none, none, none,
         some (errorDetailsJson (js "Failed to fetch TS file") (js "URI malformed")),
         false, []⟩) ∧
    (∀ d, decodeURIComponent url = some d → isAbsoluteUrl d = false →
      (m3u8Handler net jsonParse protocol host (some url) headers?).fetched = [] ∧
      ((m3u8Handler net jsonParse protocol host (some url) headers?).status = 400 ∨
       (m3u8Handler net jsonParse protocol host (some url) headers?).status = 500) ∧
      (tsHandler net jsonParse rangeHeader (some url) headers?).fetched = [] ∧
      ((tsHandler net jsonParse rangeHeader (some url) headers?).status = 400 ∨
       (tsHandler net jsonParse rangeHeader (some url) headers?).status = 500)) := by
  constructor
  · intro hdec
    have hne : ¬ url = [] := by
      intro hcase
      subst hcase
      rw [decodeURIComponent_nil] at hdec
      exact absurd hdec (by simp)
    have hbeq : (url == ([] : JStr)) = false := by
      cases url with
      | nil => exact absurd rfl hne
      | cons a as => rfl
    constructor
    · simp only [m3u8Handler, hbeq, Bool.false_eq_true, if_false, hdec]
    · simp only [tsHandler, hbeq, Bool.false_eq_true, if_false, hdec]
  · intro d hdec habs
    by_cases hurl : url = []
    · subst hurl
      exact ⟨rfl, Or.inl rfl, rfl, Or.inl rfl⟩
    · have hbeq : (url == ([] : JStr)) = false := by
        cases url with
        | nil => exact absurd rfl hurl
        | cons a as => rfl
      have habs2 : isAbsoluteUrl d = false := habs
      refine ⟨?_, Or.inr ?_, ?_, Or.inr ?_⟩ <;>
        simp only [m3u8Handler, tsHandler, hbeq, Bool.false_eq_true, if_false, hdec,
          nodeFetch, habs2, Bool.true_eq_false, if_false] <;> rfl

/-- Witness for C4: a malformed escape (`%`) and a relative URL
(`segs/seg0.ts`) both short-circuit without any upstream fetch. -/
theorem claim_C4_invalid_url_no_fetch_witness :
    decodeURIComponent (js "%") = none ∧
    (m3u8Handler (fun _ _ => FetchResult.err (js "boom")) (fun _ => none)
        (js "http") (js "relay.host") (some (js "%")) none =
      ⟨500, errorDetailsJson (js "Failed to fetch M3U8") (js "URI malformed"), []⟩ ∧
     tsHandler (fun _ _ => FetchResult.err (js "boom")) (fun _ => none)
        none (some (js "%")) none =
      ⟨500, none, none, none, none,
       some (errorDetailsJson (js "Failed to fetch TS file") (js "URI malformed")),
       false, []⟩) ∧
    decodeURIComponent (js "segs%2Fseg0.ts") = some (js "segs/seg0.ts") ∧
    isAbsoluteUrl (js "segs/seg0.ts") = false ∧
    (m3u8Handler (fun _ _ => FetchResult.err (js "boom")) (fun _ => none)
      (js "http") (js "relay.host") (some (js "segs%2Fseg0.ts")) none).fetched = [] :=
  ⟨by decide,
   (claim_C4_invalid_url_no_fetch (fun _ _ => FetchResult.err (js "boom"))
     (fun _ => none) (js "http") (js "relay.host") (js "%") none none).1 (by decide),
   by decide, by decide,
   ((claim_C4_invalid_url_no_fetch (fun _ _ => FetchResult.err (js "boom"))
     (fun _ => none) (js "http") (js "relay.host") (js "segs%2Fseg0.ts") none none).2
     (js "segs/seg0.ts") (by decide) (by decide)).1⟩

/-- C6: a non-2xx upstream response makes both relays answer 500 with
a JSON `{error, details}` body whose `details` contains the decimal
upstream status code, and no upstream body bytes are relayed (the
error JSON is the whole client body; `/ts-proxy` does not stream). -/
theorem claim_C6_upstream_error (net : JStr → HeaderMap → FetchResult)
    (jsonParse : JStr → Option HeaderMap) (protocol host url d : JStr)
    (rangeHeader headers? : Option JStr) (r : UpResp)
    (hdec : decodeURIComponent url = some d)
    (habs : isAbsoluteUrl d = true)
    (hnet : ∀ hm, net d hm = .resp r)
    (hbad : respOk r = false) :
    m3u8Handler net jsonParse protocol host (some url) headers? =
      ⟨500, errorDetailsJson (js "Failed to fetch M3U8")
        (js "HTTP " ++ Nat.toDigits 10 r.status ++ js ": " ++ r.statusText),
       [(d, mergeHeaders m3u8DefaultHeaders (buildOverrides jsonParse headers?))]⟩ ∧
    tsHandler net jsonParse rangeHeader (some url) headers? =
      ⟨500, none, none, none, none,
       some (errorDetailsJson (js "Failed to fetch TS file")
         (js "HTTP " ++ Nat.toDigits 10 r.status ++ js ": " ++ r.statusText)),
       false,
       [(d, mergeHeaders (tsDefaultHeaders rangeHeader)
         (buildOverrides jsonParse headers?))]⟩ ∧
    containsSeq (Nat.toDigits 10 r.status)
      (js "HTTP " ++ Nat.toDigits 10 r.status ++ js ": " ++ r.statusText) = true := by
  refine ⟨?_, ?_, ?_⟩
  · rw [m3u8Handler_some net jsonParse protocol host url headers? d hdec habs, hnet]
    simp only [hbad, Bool.false_eq_true, if_false]
  · rw [tsHandler_some net jsonParse rangeHeader url headers? d hdec habs, hnet]
    simp only [hbad, Bool.false_eq_true, if_false]
  · have h1 : js "HTTP " ++ Nat.toDigits 10 r.status ++ js ": " ++ r.statusText =
        js "HTTP " ++ (Nat.toDigits 10 r.status ++ (js ": " ++ r.statusText)) := by
      simp [List.append_assoc]
    rw [h1]
    exact containsSeq_mid _ _ _

/-- Witness for C6: a 404 upstream yields a 500 whose details contain
`404`. -/
theorem claim_C6_upstream_error_witness :
    m3u8Handler
      (fun _ _ => FetchResult.resp ⟨404, js "Not Found", none, none, none, js "oops"⟩)
      (fun _ => none) (js "http") (js "relay.host")
      (some (js "http%3A%2F%2Fcdn.example%2Fseg0.ts")) none =
      ⟨500, errorDetailsJson (js "Failed to fetch M3U8")
        (js "HTTP " ++ Nat.toDigits 10 404 ++ js ": " ++ js "Not Found"),
       [(js "http://cdn.example/seg0.ts", m3u8DefaultHeaders)]⟩ ∧
    containsSeq (js "404")
      (js "HTTP " ++ Nat.toDigits 10 404 ++ js ": " ++ js "Not Found") = true := by
  refine ⟨?_, by decide⟩
  exact (claim_C6_upstream_error
    (fun _ _ => FetchResult.resp ⟨404, js "Not Found", none, none, none, js "oops"⟩)
    (fun _ => none) (js "http") (js "relay.host")
    (js "http%3A%2F%2Fcdn.example%2Fseg0.ts") (js "http://cdn.example/seg0.ts")
    none none ⟨404, js "Not Found", none, none, none, js "oops"⟩
    (by decide) (by decide) (fun hm => rfl) (by decide)).1

/-- C7 counterexample: an upstream 2xx response that carries a
`Content-Range` header with the empty-string value is answered 200 with
no Content-Range mirrored — `if (response.headers.get('content-range'))`
is a JavaScript truthiness test, so a carried-but-falsy header does not
trigger 206, refuting the claimed "206 iff the header is carried". -/
theorem claim_C7_counterexample :
    (⟨200, js "OK", some (js "video/mp2t"), some (js "4"), some [], js "raw"⟩ :
      UpResp).contentRange.isSome = true ∧
    tsHandler
      (fun _ _ => FetchResult.resp ⟨200, js "OK", some (js "video/mp2t"),
        some (js "4"), some [], js "raw"⟩)
      (fun _ => none) none
      (some (js "http%3A%2F%2Fcdn.example%2Fseg0.ts")) none =
      ⟨200, some (js "video/mp2t"), some (js "4"), some (js "bytes"), none,
       none, true, [(js "http://cdn.example/seg0.ts", tsDefaultHeaders none)]⟩ :=
  ⟨by decide, by decide⟩

/-- C7 (amended): on upstream success, `/ts-proxy` answers 206 — and
mirrors the exact `Content-Range` value — if and only if the upstream
response carries a Content-Range header with a non-empty (truthy)
value; otherwise (header absent or empty) the status is 200 and no
Content-Range is set.  In all success cases it advertises
`Accept-Ranges: bytes` and mirrors the upstream `Content-Type`,
defaulting to `video/mp2t` when that header is absent or empty. -/
theorem claim_C7_range_semantics (net : JStr → HeaderMap → FetchResult)
    (jsonParse : JStr → Option HeaderMap) (url d : JStr)
    (rangeHeader headers? : Option JStr) (r : UpResp)
    (hdec : decodeURIComponent url = some d)
    (habs : isAbsoluteUrl d = true)
    (hnet : ∀ hm, net d hm = .resp r)
    (hok : respOk r = true) :
    tsHandler net jsonParse rangeHeader (some url) headers? =
      ⟨if jsTruthy r.contentRange then 206 else 200,
       some (jsOrDefault r.contentType (js "video/mp2t")),
       some (r.contentLength.getD (js "null")),
       some (js "bytes"),
       (if jsTruthy r.contentRange then r.contentRange else none),
       none, true,
       [(d, mergeHeaders (tsDefaultHeaders rangeHeader)
         (buildOverrides jsonParse headers?))]⟩ ∧
    ((tsHandler net jsonParse rangeHeader (some url) headers?).status = 206 ↔
      jsTruthy r.contentRange = true) ∧
    (jsTruthy r.contentRange = true →
      (tsHandler net jsonParse rangeHeader (some url) headers?).contentRange =
        r.contentRange) ∧
    (jsTruthy r.contentRange = false →
      (tsHandler net jsonParse rangeHeader (some url) headers?).contentRange = none ∧
      (tsHandler net jsonParse rangeHeader (some url) headers?).status = 200) ∧
    (tsHandler net jsonParse rangeHeader (some url) headers?).acceptRanges =
      some (js "bytes") ∧
    (tsHandler net jsonParse rangeHeader (some url) headers?).contentType =
      some (jsOrDefault r.contentType (js "video/mp2t")) := by
  have h := tsHandler_some net jsonParse rangeHeader url headers? d hdec habs
  rw [hnet] at h
  simp only [hok, if_true] at h
  refine ⟨h, ?_, ?_, ?_, ?_, ?_⟩
  · rw [h]
    by_cases hcr : jsTruthy r.contentRange = true
    · simp [hcr]
    · simp only [Bool.not_eq_true] at hcr
      simp [hcr]
  · intro hcr
    rw [h]
    simp [hcr]
  · intro hcr
    rw [h]
    simp [hcr]
  · rw [h]
  · rw [h]

/-- Witness for C7 (amended): an upstream 206 carrying
`Content-Range: bytes 0-999/5000` is mirrored with outbound status 206. -/
theorem claim_C7_range_semantics_witness :
    tsHandler
      (fun _ _ => FetchResult.resp ⟨206, js "Partial Content", some (js "video/mp2t"),
        some (js "1000"), some (js "bytes 0-999/5000"), js "raw"⟩)
      (fun _ => none) (some (js "bytes=0-999"))
      (some (js "http%3A%2F%2Fcdn.example%2Fseg0.ts")) none =
      ⟨206, some (js "video/mp2t"), some (js "1000"), some (js "bytes"),
       some (js "bytes 0-999/5000"), none, true,
       [(js "http://cdn.example/seg0.ts",
         tsDefaultHeaders (some (js "bytes=0-999")))]⟩ := by
  have h := (claim_C7_range_semantics
    (fun _ _ => FetchResult.resp ⟨206, js "Partial Content", some (js "video/mp2t"),
      some (js "1000"), some (js "bytes 0-999/5000"), js "raw"⟩)
    (fun _ => none) (js "http%3A%2F%2Fcdn.example%2Fseg0.ts")
    (js "http://cdn.example/seg0.ts") (some (js "bytes=0-999")) none
    ⟨206, js "Partial Content", some (js "video/mp2t"), some (js "1000"),
     some (js "bytes 0-999/5000"), js "raw"⟩
    (by decide) (by decide) (fun hm => rfl) (by decide)).1
  rw [h]
  decide

/-- Parse-agnostic overrides of a valid-but-empty header object. -/
theorem buildOverrides_empty_parse (headers? : Option JStr) :
    buildOverrides (fun _ => some ([] : HeaderMap)) headers? = [] := by
  cases headers? with
  | none => rfl
  | some h =>
    simp only [buildOverrides]
    by_cases hhs : (h == ([] : JStr)) = true
    · rw [if_pos hhs]
    · rw [if_neg hhs]
      cases decodeURIComponent h <;> rfl

/-- C8: whenever the raw `headers` parameter fails percent-decoding or
JSON deserialization, the overrides are treated as empty: the handlers
behave exactly as with a well-formed empty override object, and the
upstream fetch still happens, carrying exactly the default header set. -/
theorem claim_C8_header_decode_failure (net : JStr → HeaderMap → FetchResult)
    (jsonParse : JStr → Option HeaderMap) (protocol host : JStr)
    (rangeHeader : Option JStr) (url? : Option JStr) (hs : JStr)
    (hfail : decodeURIComponent hs = none ∨
      ∀ d2, decodeURIComponent hs = some d2 → jsonParse d2 = none) :
    buildOverrides jsonParse (some hs) = [] ∧
    m3u8Handler net jsonParse protocol host url? (some hs) =
      m3u8Handler net (fun _ => some []) protocol host url? (some hs) ∧
    tsHandler net jsonParse rangeHeader url? (some hs) =
      tsHandler net (fun _ => some []) rangeHeader url? (some hs) ∧
    (∀ url d, url? = some url → decodeURIComponent url = some d →
      isAbsoluteUrl d = true →
      (m3u8Handler net jsonParse protocol host url? (some hs)).fetched =
        [(d, m3u8DefaultHeaders)] ∧
      (tsHandler net jsonParse rangeHeader url? (some hs)).fetched =
        [(d, tsDefaultHeaders rangeHeader)]) := by
  have hov : buildOverrides jsonParse (some hs) = [] := by
    simp only [buildOverrides]
    by_cases hhs : (hs == ([] : JStr)) = true
    · rw [if_pos hhs]
    · rw [if_neg hhs]
      cases hd : decodeURIComponent hs with
      | none => rfl
      | some d2 =>
        rcases hfail with hf | hf
        · rw [hf] at hd
          exact absurd hd (by simp)
        · show (jsonParse d2).getD [] = []
          rw [hf d2 hd]
          rfl
  have hov2 := buildOverrides_empty_parse (some hs)
  refine ⟨hov, ?_, ?_, ?_⟩
  · cases url? with
    | none => rfl
    | some url => simp only [m3u8Handler, hov, hov2]
  · cases url? with
    | none => rfl
    | some url => simp only [tsHandler, hov, hov2]
  · intro url d hurl hdec habs
    subst hurl
    constructor
    · rw [m3u8Handler_some net jsonParse protocol host url (some hs) d hdec habs, hov,
        mergeHeaders_nil]
      cases net d m3u8DefaultHeaders with
      | err m => rfl
      | resp r =>
        by_cases hok : respOk r = true
        · simp only [hok, if_true]
          split <;> rfl
        · simp [hok]
    · rw [tsHandler_some net jsonParse rangeHeader url (some hs) d hdec habs, hov,
        mergeHeaders_nil]
      cases net d (tsDefaultHeaders rangeHeader) with
      | err m => rfl
      | resp r =>
        by_cases hok : respOk r = true
        · simp [hok]
        · simp [hok]

/-- Witness for C8: a malformed escape in `headers` (`%GG`) leaves the
overrides empty and the fetch proceeds with the defaults. -/
theorem claim_C8_header_decode_failure_witness :
    buildOverrides (fun _ => none) (some (js "%GG")) = [] ∧
    (m3u8Handler (fun _ _ => FetchResult.err (js "down")) (fun _ => none)
      (js "http") (js "relay.host")
      (some (js "http%3A%2F%2Fcdn.example%2Fa%2Findex.m3u8"))
      (some (js "%GG"))).fetched =
      [(js "http://cdn.example/a/index.m3u8", m3u8DefaultHeaders)] ∧
    (tsHandler (fun _ _ => FetchResult.err (js "down")) (fun _ => none)
      none (some (js "http%3A%2F%2Fcdn.example%2Fa%2Fseg0.ts"))
      (some (js "%GG"))).fetched =
      [(js "http://cdn.example/a/seg0.ts", tsDefaultHeaders none)] := by
  refine ⟨?_, ?_, ?_⟩
  · exact (claim_C8_header_decode_failure (fun _ _ => FetchResult.err (js "down"))
      (fun _ => none) (js "http") (js "relay.host") none
      (some (js "http%3A%2F%2Fcdn.example%2Fa%2Findex.m3u8")) (js "%GG")
      (Or.inl (by decide))).1
  · exact ((claim_C8_header_decode_failure (fun _ _ => FetchResult.err (js "down"))
      (fun _ => none) (js "http") (js "relay.host") none
      (some (js "http%3A%2F%2Fcdn.example%2Fa%2Findex.m3u8")) (js "%GG")
      (Or.inl (by decide))).2.2.2 _ _ rfl (by decide) (by decide)).1
  · exact ((claim_C8_header_decode_failure (fun _ _ => FetchResult.err (js "down"))
      (fun _ => none) (js "http") (js "relay.host") none
      (some (js "http%3A%2F%2Fcdn.example%2Fa%2Fseg0.ts")) (js "%GG")
      (Or.inl (by decide))).2.2.2 _ _ rfl (by decide) (by decide)).2

/-- A line starting with `#` never matches the segment regex. -/
theorem segMatch_hash {line : JStr} (h : line.head? = some '#') :
    segMatch line = false := by
  cases line with
  | nil => simp at h
  | cons c tl =>
    simp only [List.head?_cons, Option.some.injEq] at h
    subst h
    simp [segMatch]

/-- C9: every comment/tag line (starting `#`) and every line not
matching the segment-reference regex passes through the manifest
rewrite byte-identically, at the same position and with the same
line terminators. -/
theorem claim_C9_passthrough (origin baseUrl : JStr) (headersRaw : Option JStr)
    (content out : JStr)
    (hok : rewriteManifest origin baseUrl headersRaw content = .ok out) :
    ∃ first2 rest2,
      out = joinLinesP (first2, rest2) ∧
      rest2.map Prod.fst = termsOf content ∧
      rest2.length = (splitLinesP content).2.length ∧
      ((splitLinesP content).1.head? = some '#' ∨
        segMatch (splitLinesP content).1 = false →
        first2 = (splitLinesP content).1) ∧
      (∀ (i : Nat) t line, (splitLinesP content).2[i]? = some (t, line) →
        (line.head? = some '#' ∨ segMatch line = false) →
        rest2[i]? = some (t, line)) := by
  cases headersRaw with
  | none =>
    rw [rewriteManifest_none] at hok
    injection hok with hout
    refine ⟨rewriteLineOk origin baseUrl (splitLinesP content).1,
      (splitLinesP content).2.map (fun tl => (tl.1, rewriteLineOk origin baseUrl tl.2)),
      hout.symm, ?_, ?_, ?_, ?_⟩
    · simp [termsOf, List.map_map]
    · simp [List.length_map]
    · intro hcase
      have hm : segMatch (splitLinesP content).1 = false := by
        rcases hcase with hc | hc
        · exact segMatch_hash hc
        · exact hc
      unfold rewriteLineOk
      rw [if_neg (by simp [hm])]
    · intro i t line hi hcase
      have hm : segMatch line = false := by
        rcases hcase with hc | hc
        · exact segMatch_hash hc
        · exact hc
      rw [List.getElem?_map, hi]
      show some (t, rewriteLineOk origin baseUrl line) = some (t, line)
      unfold rewriteLineOk
      rw [if_neg (by simp [hm])]
  | some h =>
    revert hok
    unfold rewriteManifest
    cases hfirst : rewriteLine origin baseUrl (some h) (splitLinesP content).1 with
    | error e => intro hok; exact absurd hok (by simp)
    | ok f2 =>
      cases hrest : rewriteRest origin baseUrl (some h) (splitLinesP content).2 with
      | error e => intro hok; exact absurd hok (by simp)
      | ok r2 =>
        intro hok
        injection hok with hout
        obtain ⟨hmf, rfl⟩ := rewriteLine_some_ok hfirst
        obtain ⟨rfl, hall⟩ := rewriteRest_some_ok hrest
        refine ⟨(splitLinesP content).1, (splitLinesP content).2, hout.symm,
          rfl, rfl, fun _ => rfl, ?_⟩
        intro i t line hi _
        exact hi

/-- Witness for C9 on the spec's example playlist: the `#` lines pass
through unchanged at their positions. -/
theorem claim_C9_passthrough_witness :
    ∃ first2 rest2,
      js "#EXTM3U\n#EXTINF:10.0,\nhttp://relay.host/ts-proxy?url=http%3A%2F%2Fcdn.example%2Fa%2Fseg0.ts" =
        joinLinesP (first2, rest2) ∧
      rest2.map Prod.fst = termsOf (js "#EXTM3U\n#EXTINF:10.0,\nseg0.ts") ∧
      rest2.length = (splitLinesP (js "#EXTM3U\n#EXTINF:10.0,\nseg0.ts")).2.length ∧
      ((splitLinesP (js "#EXTM3U\n#EXTINF:10.0,\nseg0.ts")).1.head? = some '#' ∨
        segMatch (splitLinesP (js "#EXTM3U\n#EXTINF:10.0,\nseg0.ts")).1 = false →
        first2 = (splitLinesP (js "#EXTM3U\n#EXTINF:10.0,\nseg0.ts")).1) ∧
      (∀ (i : Nat) t line,
        (splitLinesP (js "#EXTM3U\n#EXTINF:10.0,\nseg0.ts")).2[i]? = some (t, line) →
        (line.head? = some '#' ∨ segMatch line = false) →
        rest2[i]? = some (t, line)) :=
  claim_C9_passthrough (js "http://relay.host") (js "http://cdn.example/a/") none
    (js "#EXTM3U\n#EXTINF:10.0,\nseg0.ts") _ (by rfl)

/-- C3: a segment reference whose trimmed value already begins with the
recognized scheme prefix is passed into the proxy link unchanged except
for percent-encoding (no `baseUrl` prepended), and re-running the
rewrite on a line the rewrite produced never prepends a `baseUrl`:
the line either passes through unchanged or is wrapped into a fresh
proxy link around its own (trimmed) text. -/
theorem claim_C3_rewrite_idempotent :
    (∀ (origin baseUrl line : JStr), segMatch line = true →
      startsWithChars (js "http") (jsTrim line) = true →
      rewriteLine origin baseUrl none line =
        .ok (origin ++ js "/ts-proxy?url=" ++ encodeURIComponent (jsTrim line))) ∧
    (∀ (protocol host baseUrl baseUrl2 origin2 line l : JStr),
      startsWithChars (js "http") protocol = true →
      rewriteLine (mkOrigin protocol host) baseUrl none line = .ok l →
      rewriteLine origin2 baseUrl2 none l = .ok l ∨
      rewriteLine origin2 baseUrl2 none l =
        .ok (origin2 ++ js "/ts-proxy?url=" ++ encodeURIComponent (jsTrim l))) := by
  constructor
  · intro origin baseUrl line hm hp
    simp only [rewriteLine, resolveRef]
    rw [if_pos hm, if_pos hp]
  · intro protocol host baseUrl baseUrl2 origin2 line l hp hl
    rw [rewriteLine_none] at hl
    injection hl with hl2
    by_cases hline : segMatch line = true
    · have hlshape : l = mkOrigin protocol host ++ js "/ts-proxy?url=" ++
          encodeURIComponent (resolveRef baseUrl line) := by
        rw [← hl2]
        unfold rewriteLineOk
        rw [if_pos hline]
      have hhttp : startsWithChars (js "http") l = true := by
        obtain ⟨pt, hpt⟩ := (startsWithChars_iff _ _).1 hp
        rw [hlshape, hpt, mkOrigin]
        rw [show js "http" ++ pt ++ js "://" ++ host ++ js "/ts-proxy?url=" ++
            encodeURIComponent (resolveRef baseUrl line) =
            js "http" ++ (pt ++ (js "://" ++ (host ++ (js "/ts-proxy?url=" ++
              encodeURIComponent (resolveRef baseUrl line))))) from by
          simp [List.append_assoc]]
        exact startsWithChars_append _ _
      rw [rewriteLine_none origin2 baseUrl2 l]
      by_cases hm : segMatch l = true
      · right
        unfold rewriteLineOk
        rw [if_pos hm]
        rw [show resolveRef baseUrl2 l = jsTrim l from by
          simp only [resolveRef]
          rw [if_pos (jsTrim_starts_http hhttp)]]
      · left
        unfold rewriteLineOk
        rw [if_neg hm]
    · have hleq : l = line := by
        rw [← hl2]
        unfold rewriteLineOk
        rw [if_neg hline]
      left
      rw [rewriteLine_none origin2 baseUrl2 l]
      unfold rewriteLineOk
      rw [if_neg (by rw [hleq]; exact hline)]

/-- Witness for C3: an absolute reference is wrapped without prefixing,
and the rewrite's own output line is never `baseUrl`-prefixed again. -/
theorem claim_C3_rewrite_idempotent_witness :
    rewriteLine (js "http://relay.host") (js "http://cdn.example/a/") none
      (js "http://other.cdn/seg1.ts") =
      .ok (js "http://relay.host" ++ js "/ts-proxy?url=" ++
        encodeURIComponent (jsTrim (js "http://other.cdn/seg1.ts"))) ∧
    (rewriteLine (js "https://relay2.host") (js "http://cdn2/b/") none
        (js "http://relay.host/ts-proxy?url=http%3A%2F%2Fcdn.example%2Fa%2Fseg0.ts") =
      .ok (js "http://relay.host/ts-proxy?url=http%3A%2F%2Fcdn.example%2Fa%2Fseg0.ts") ∨
     rewriteLine (js "https://relay2.host") (js "http://cdn2/b/") none
        (js "http://relay.host/ts-proxy?url=http%3A%2F%2Fcdn.example%2Fa%2Fseg0.ts") =
      .ok (js "https://relay2.host" ++ js "/ts-proxy?url=" ++
        encodeURIComponent (jsTrim
          (js "http://relay.host/ts-proxy?url=http%3A%2F%2Fcdn.example%2Fa%2Fseg0.ts")))) :=
  ⟨claim_C3_rewrite_idempotent.1 _ _ _ (by decide) (by decide),
   claim_C3_rewrite_idempotent.2 (js "http") (js "relay.host")
     (js "http://cdn.example/a/") (js "http://cdn2/b/") (js "https://relay2.host")
     (js "seg0.ts")
     (js "http://relay.host/ts-proxy?url=http%3A%2F%2Fcdn.example%2Fa%2Fseg0.ts")
     (by decide) (by rfl)⟩

/-- A rewritten line contains no line terminators when the origin has
none (encoded output and the fixed path are terminator-free). -/
theorem noTerm_rewriteLineOk {origin : JStr} (baseUrl line : JStr)
    (ho : noTerm origin = true) (hl : noTerm line = true) :
    noTerm (rewriteLineOk origin baseUrl line) = true := by
  unfold rewriteLineOk
  by_cases hm : segMatch line = true
  · rw [if_pos hm]
    exact noTerm_append_true (noTerm_append_true ho (by decide)) (noTerm_encode _)
  · rw [if_neg hm]
    exact hl

/-- The no-`headers` rewrite maps the lines pointwise and keeps the
terminators. -/
theorem rewrite_body_lines (origin baseUrl content : JStr)
    (ho : noTerm origin = true) :
    ∃ body, rewriteManifest origin baseUrl none content = .ok body ∧
      linesOf body = (linesOf content).map (rewriteLineOk origin baseUrl) ∧
      termsOf body = termsOf content := by
  refine ⟨_, rewriteManifest_none origin baseUrl content, ?_, ?_⟩
  all_goals {
    have hsplit : splitLinesP (joinLinesP
        (rewriteLineOk origin baseUrl (splitLinesP content).1,
         (splitLinesP content).2.map
           (fun tl => (tl.1, rewriteLineOk origin baseUrl tl.2)))) =
        (rewriteLineOk origin baseUrl (splitLinesP content).1,
         (splitLinesP content).2.map
           (fun tl => (tl.1, rewriteLineOk origin baseUrl tl.2))) := by
      apply splitLinesP_join
      · exact noTerm_rewriteLineOk baseUrl _ ho (splitLinesP_props content).1
      · intro tl htl
        simp only [List.mem_map] at htl
        obtain ⟨x, hx, rfl⟩ := htl
        exact ⟨((splitLinesP_props content).2 x hx).1,
          noTerm_rewriteLineOk baseUrl _ ho ((splitLinesP_props content).2 x hx).2⟩
    simp only [linesOf, termsOf, hsplit, List.map_map, List.map_cons]
    rfl
  }

/-- C2 counterexample: the playlist consisting of the single line `.ts`
has every non-comment line containing `.ts`, yet the rewrite leaves it
unchanged (the regex `.+\.ts` demands a character before `.ts`), so no
`/ts-proxy` link appears in the 200 response. -/
theorem claim_C2_counterexample :
    (∀ line ∈ linesOf (js ".ts"),
      line.head? ≠ some '#' ∧ containsSeq (js ".ts") line = true) ∧
    m3u8Handler
      (fun _ _ => FetchResult.resp ⟨200, js "OK", none, none, none, js ".ts"⟩)
      (fun _ => none) (js "http") (js "relay.host")
      (some (js "http%3A%2F%2Fcdn.example%2Fa%2Findex.m3u8")) none =
      ⟨200, js ".ts", [(js "http://cdn.example/a/index.m3u8", m3u8DefaultHeaders)]⟩ ∧
    containsSeq (js "/ts-proxy") (js ".ts") = false := by
  refine ⟨by decide, by decide, by decide⟩

/-- C2 (amended): for playlists whose lines each start with `#` or
match the segment pattern (contain `.ts` at index ≥ 1), the handler
with no `headers` parameter answers 200 with every matching line
replaced, at its position, by
`origin ++ "/ts-proxy?url=" ++ encodeURIComponent(resolved)` where the
resolved reference percent-decodes back exactly and equals the trimmed
line, `baseUrl`-prefixed unless it starts with `http`. -/
theorem claim_C2_segment_rewrite (net : JStr → HeaderMap → FetchResult)
    (jsonParse : JStr → Option HeaderMap) (protocol host url d : JStr) (r : UpResp)
    (hproto : noTerm protocol = true) (hhost : noTerm host = true)
    (hdec : decodeURIComponent url = some d) (habs : isAbsoluteUrl d = true)
    (hnet : ∀ hm, net d hm = .resp r) (hok : respOk r = true)
    (hlines : ∀ line ∈ linesOf r.bodyText,
      line.head? = some '#' ∨ segMatch line = true) :
    ∃ body,
      m3u8Handler net jsonParse protocol host (some url) none =
        ⟨200, body, [(d, m3u8DefaultHeaders)]⟩ ∧
      termsOf body = termsOf r.bodyText ∧
      (linesOf body).length = (linesOf r.bodyText).length ∧
      (∀ (i : Nat) line, (linesOf r.bodyText)[i]? = some line →
        segMatch line = true →
        (linesOf body)[i]? = some (mkOrigin protocol host ++ js "/ts-proxy?url=" ++
          encodeURIComponent (resolveRef (baseUrlOf d) line)) ∧
        decodeURIComponent (encodeURIComponent (resolveRef (baseUrlOf d) line)) =
          some (resolveRef (baseUrlOf d) line) ∧
        resolveRef (baseUrlOf d) line =
          (if startsWithChars (js "http") (jsTrim line) = true then jsTrim line
           else baseUrlOf d ++ jsTrim line)) := by
  have ho : noTerm (mkOrigin protocol host) = true := by
    unfold mkOrigin
    exact noTerm_append_true (noTerm_append_true hproto (by decide)) hhost
  obtain ⟨body, hbody, hlines2, hterms⟩ :=
    rewrite_body_lines (mkOrigin protocol host) (baseUrlOf d) r.bodyText ho
  refine ⟨body, ?_, hterms, ?_, ?_⟩
  · rw [m3u8Handler_some net jsonParse protocol host url none d hdec habs, hnet]
    simp only [hok, if_true, hbody]
    rfl
  · rw [hlines2, List.length_map]
  · intro i line hi hm
    rw [hlines2, List.getElem?_map, hi]
    refine ⟨?_, decode_encode _, by simp [resolveRef]⟩
    show some (rewriteLineOk (mkOrigin protocol host) (baseUrlOf d) line) = _
    unfold rewriteLineOk
    rw [if_pos hm]

/-- Witness for C2 (amended) on the spec's example playlist. -/
theorem claim_C2_segment_rewrite_witness :
    ∃ body,
      m3u8Handler
        (fun _ _ => FetchResult.resp ⟨200, js "OK", none, none, none,
          js "#EXTM3U\nseg0.ts"⟩)
        (fun _ => none) (js "http") (js "relay.host")
        (some (js "http%3A%2F%2Fcdn.example%2Fa%2Findex.m3u8")) none =
        ⟨200, body, [(js "http://cdn.example/a/index.m3u8", m3u8DefaultHeaders)]⟩ ∧
      termsOf body = termsOf (js "#EXTM3U\nseg0.ts") ∧
      (linesOf body).length = (linesOf (js "#EXTM3U\nseg0.ts")).length ∧
      (∀ (i : Nat) line, (linesOf (js "#EXTM3U\nseg0.ts"))[i]? = some line →
        segMatch line = true →
        (linesOf body)[i]? = some (mkOrigin (js "http") (js "relay.host") ++
          js "/ts-proxy?url=" ++
          encodeURIComponent
            (resolveRef (baseUrlOf (js "http://cdn.example/a/index.m3u8")) line)) ∧
        decodeURIComponent (encodeURIComponent
          (resolveRef (baseUrlOf (js "http://cdn.example/a/index.m3u8")) line)) =
          some (resolveRef (baseUrlOf (js "http://cdn.example/a/index.m3u8")) line) ∧
        resolveRef (baseUrlOf (js "http://cdn.example/a/index.m3u8")) line =
          (if startsWithChars (js "http") (jsTrim line) = true then jsTrim line
           else baseUrlOf (js "http://cdn.example/a/index.m3u8") ++ jsTrim line)) :=
  claim_C2_segment_rewrite
    (fun _ _ => FetchResult.resp ⟨200, js "OK", none, none, none,
      js "#EXTM3U\nseg0.ts"⟩)
    (fun _ => none) (js "http") (js "relay.host")
    (js "http%3A%2F%2Fcdn.example%2Fa%2Findex.m3u8")
    (js "http://cdn.example/a/index.m3u8")
    ⟨200, js "OK", none, none, none, js "#EXTM3U\nseg0.ts"⟩
    (by decide) (by decide) (by decide) (by decide) (fun hm => rfl) (by decide)
    (by decide)

end M3u8Relay
